import Mathlib

/-!
Verification of the `@isaacs/cached` memoization library (src/index.ts).

The library exports two functions:

* `cached(fn, cache?)` — memoizes a function of arity 0 or 1 over a pluggable
  map-like backing store (`has` / `get` / `set` / `delete`).
* `cachedMtime(fn, statFreqMs?, cache?, mtimeCache?)` — an mtime-gated wrapper:
  before delegating to the memoizer it consults `getMtime(path)`, which
  rate-limits real `statSync` calls and evicts stale result-cache entries when
  the modification time of the path changes.

The embedding below models JavaScript `Map` objects as association lists,
arbitrary map-like stores as a record of pure operations over an explicit
state type, monotonic clock readings and modification times as integers, and
the outcome of the (caught) `statSync` call as an `Option Int` environment
input (`none` models a thrown error swallowed by `catcher`, which makes the
`typeof m` test fail).
-/

namespace Cached

/-- Lookup in an association list: the JS `Map.get`, with `none` playing the
role of `undefined`. -/
def alGet [DecidableEq K] (l : List (K × V)) (k : K) : Option V :=
  match l with
  | [] => none
  | (k', v) :: t => if k' = k then some v else alGet t k

/-- Removal from an association list: the JS `Map.delete` (the returned
boolean of the JS API is ignored by the library, so it is dropped here). -/
def alErase [DecidableEq K] (k : K) : List (K × V) → List (K × V)
  | [] => []
  | (k', v) :: t => if k' = k then alErase k t else (k', v) :: alErase k t

/-- Insertion into an association list: the JS `Map.set` (replacing any
previous binding of the key). -/
def alSet [DecidableEq K] (k : K) (v : V) (l : List (K × V)) : List (K × V) :=
  (k, v) :: alErase k l

/-- The `MapLike` interface of src/index.ts (`get`/`has`/`set`/`delete`),
modelled as pure operations over an explicit store-state type `S`.  `get`
returns `Option V`, with `none` standing for the JS `undefined`. -/
structure MapLike (S K V : Type) where
  get : S → K → Option V
  has : S → K → Bool
  set : S → K → V → S
  delete : S → K → S

/-- The default backing store of the library: `new Map()`, modelled as an
association list. -/
def listMap (K V : Type) [DecidableEq K] : MapLike (List (K × V)) K V where
  get s k := alGet s k
  has s k := (alGet s k).isSome
  set s k v := alSet k v s
  delete s k := alErase k s

/-- One invocation of the wrapper returned by `cached(fn, cache)`:

    const has = cache.has(arg)
    if (has) return cache.get(arg) as R
    const r = fn(arg); cache.set(arg, r); return r

Returns the value produced (as `Option V`: the `cache.get(arg) as R` cast can
yield `undefined` when a custom store answers `has` with `true` but `get` with
`undefined`), the store state afterwards, and how many times `fn` was
invoked. -/
def cachedStep (M : MapLike S A V) (fn : A → V) (s : S) (a : A) :
    Option V × S × Nat :=
  if M.has s a then (M.get s a, s, 0)
  else
    let r := fn a
    (some r, M.set s a r, 1)

/-- The same invocation for a fallible `fn` (a JS function that may throw),
modelled in `Except`.  A thrown error aborts before `cache.set` runs, so the
store state is returned unchanged alongside the propagated error. -/
def cachedStepE (M : MapLike S A V) (fn : A → Except E V) (s : S) (a : A) :
    Except E (Option V) × S :=
  if M.has s a then (Except.ok (M.get s a), s)
  else
    match fn a with
    | Except.error e => (Except.error e, s)
    | Except.ok r => (Except.ok (some r), M.set s a r)

/-- The mutable state owned by one `cachedMtime` instance: the result cache
(`cache`) and the modification cache (`mtimeCache`), both default `Map`s.
Values of the modification cache are pairs (modification value, timestamp of
the last real check). -/
structure MtimeState (V : Type) where
  cache : List (String × V)
  mtimeCache : List (String × (Int × Int))

/-- One invocation of `getMtime(path)` from src/index.ts:

    const now = performance.now()
    const cm = mtimeCache.get(path) || [0, -1 * statFreqMs]
    if (now - cm[1] > statFreqMs) {
      const m = catcher(() => Number(statSync(path).mtime))
      if (typeof m === "number") {
        if (m !== cm[0]) cache.delete(path)
        mtimeCache.set(path, [m, now])
        return m
      } else {
        mtimeCache.delete(path)
        cache.delete(path)
        return undefined
      }
    }
    return cm[0]

The clock reading `now` and the stat outcome `statResult` (`none` when
`statSync` throws and `catcher` converts the throw to `undefined`) are
environment inputs.  The third component of the result records whether a real
filesystem query was performed. -/
def getMtime (statFreqMs : Int) (s : MtimeState V) (path : String) (now : Int)
    (statResult : Option Int) : Option Int × MtimeState V × Bool :=
  let cm := (alGet s.mtimeCache path).getD (0, -statFreqMs)
  if statFreqMs < now - cm.2 then
    match statResult with
    | some m =>
      (some m,
        { cache := if m = cm.1 then s.cache else alErase path s.cache,
          mtimeCache := alSet path (m, now) s.mtimeCache },
        true)
    | none =>
      (none,
        { cache := alErase path s.cache,
          mtimeCache := alErase path s.mtimeCache },
        true)
  else (some cm.1, s, false)

/-- One invocation of the wrapper returned by `cachedMtime`:

    (path: string) => { getMtime(path); return cfn(path) }

where `cfn = cached(fn, cache)`.  Returns the produced value, the state
afterwards, whether a real stat was performed, and how many times `fn` was
invoked. -/
def cachedMtimeCall (fn : String → V) (statFreqMs : Int) (s : MtimeState V)
    (path : String) (now : Int) (statResult : Option Int) :
    Option V × MtimeState V × Bool × Nat :=
  let g := getMtime statFreqMs s path now statResult
  let c := cachedStep (listMap String V) fn g.2.1.cache path
  (c.1, { cache := c.2.1, mtimeCache := g.2.1.mtimeCache }, g.2.2, c.2.2)

@[simp]
theorem alGet_nil [DecidableEq K] (k : K) : alGet ([] : List (K × V)) k = none := rfl

@[simp]
theorem alGet_cons [DecidableEq K] (k k' : K) (v : V) (t : List (K × V)) :
    alGet ((k', v) :: t) k = if k' = k then some v else alGet t k := rfl

@[simp]
theorem alGet_erase_self [DecidableEq K] (k : K) (l : List (K × V)) :
    alGet (alErase k l) k = none := by
  induction l with
  | nil => rfl
  | cons p t ih =>
    obtain ⟨k', v⟩ := p
    by_cases h : k' = k
    · simpa [alErase, h] using ih
    · simp [alErase, h, ih]

theorem alGet_erase_ne [DecidableEq K] (k k' : K) (l : List (K × V)) (h : k' ≠ k) :
    alGet (alErase k l) k' = alGet l k' := by
  induction l with
  | nil => rfl
  | cons p t ih =>
    obtain ⟨k'', v⟩ := p
    by_cases h2 : k'' = k
    · have h3 : ¬ k'' = k' := by
        intro h4
        exact h (h4 ▸ h2)
      have h4 : ¬ k = k' := fun h5 => h h5.symm
      simp [alErase, h2, h3, h4, ih]
    · by_cases h3 : k'' = k'
      · simp [alErase, h2, h3, h]
      · simp [alErase, h2, h3, ih]

@[simp]
theorem alGet_set_self [DecidableEq K] (k : K) (v : V) (l : List (K × V)) :
    alGet (alSet k v l) k = some v := by
  simp [alSet]

theorem alGet_set_ne [DecidableEq K] (k k' : K) (v : V) (l : List (K × V)) (h : k' ≠ k) :
    alGet (alSet k v l) k' = alGet l k' := by
  have h2 : ¬ k = k' := fun h3 => h h3.symm
  simp [alSet, h2, alGet_erase_ne k k' l h]

/-- A custom backing store whose `has` answers `true` while `get` answers
`undefined`: a JS `Map` after `map.set(key, undefined)` behaves this way.
Used to exercise the presence-check contract of `cached`. -/
def undefStore : MapLike Unit Unit Nat where
  get _ _ := none
  has _ _ := true
  set s _ _ := s
  delete s _ := s

/-- C1: calling the wrapper returned by `cached(fn)` twice with the same
argument invokes `fn` at most once; the second call returns a result equal to
the result of the first call, and `cache.get(a)` equals both.  Stated for the
default `Map` store from an arbitrary starting cache state (the fresh cache
of `cached(fn)` is the special case `c = []`). -/
theorem cached_call_twice [DecidableEq A] (fn : A → V) (c : List (A × V)) (a : A) :
    (cachedStep (listMap A V) fn c a).2.2 +
      (cachedStep (listMap A V) fn (cachedStep (listMap A V) fn c a).2.1 a).2.2 ≤ 1 ∧
    (cachedStep (listMap A V) fn (cachedStep (listMap A V) fn c a).2.1 a).1 =
      (cachedStep (listMap A V) fn c a).1 ∧
    alGet (cachedStep (listMap A V) fn (cachedStep (listMap A V) fn c a).2.1 a).2.1 a =
      (cachedStep (listMap A V) fn c a).1 := by
  by_cases h : (alGet c a).isSome
  · simp [cachedStep, listMap, h]
  · simp [cachedStep, listMap, h]

/-- C9: the memoizer decides hits with `has`, not `get`: whenever the store
reports `has(a) = true`, the stored value (whatever `get` yields, including
`undefined`) is returned and `fn` is not invoked. -/
theorem cached_hit_by_has (M : MapLike S A V) (fn : A → V) (s : S) (a : A)
    (h : M.has s a = true) :
    cachedStep M fn s a = (M.get s a, s, 0) := by
  simp [cachedStep, h]

/-- Witness for C9 at a store whose stored value is `undefined`: the wrapper
returns `undefined` without recomputing. -/
theorem cached_hit_by_has_witness :
    undefStore.has () () = true ∧
    cachedStep undefStore (fun _ => (7 : Nat)) () () = (none, (), 0) :=
  ⟨rfl, cached_hit_by_has undefStore (fun _ => (7 : Nat)) () () rfl⟩

/-- C5: when `fn` throws on a cache miss, the wrapper does not catch the
failure, the backing store is unchanged, and the failure propagates to the
caller unchanged. -/
theorem cached_error_propagates (M : MapLike S A V) (fn : A → Except E V) (s : S)
    (a : A) (e : E) (hmiss : M.has s a = false) (herr : fn a = Except.error e) :
    cachedStepE M fn s a = (Except.error e, s) := by
  simp [cachedStepE, hmiss, herr]

/-- Witness for C5 on the default `Map` store. -/
theorem cached_error_propagates_witness :
    (listMap Nat Nat).has [] 0 = false ∧
    cachedStepE (listMap Nat Nat) (fun _ => Except.error "boom") [] 0 =
      (Except.error "boom", ([] : List (Nat × Nat))) :=
  ⟨rfl, cached_error_propagates (listMap Nat Nat) (fun _ => Except.error "boom")
    [] 0 "boom" rfl rfl⟩

/-- C3: when a real stat is performed (the rate-limit test passes) and
succeeds with value `m`: the path entry is deleted from the result cache
whenever `m` differs from the cached modification value (the sentinel `0`
when no modification-cache entry exists), the pair `(m, now)` is stored into
the modification cache, and `getMtime` returns `m`. -/
theorem getMtime_stat_success (statFreqMs : Int) (s : MtimeState V) (path : String)
    (now m : Int)
    (hchk : statFreqMs < now - ((alGet s.mtimeCache path).getD (0, -statFreqMs)).2) :
    (getMtime statFreqMs s path now (some m)).1 = some m ∧
    alGet (getMtime statFreqMs s path now (some m)).2.1.mtimeCache path = some (m, now) ∧
    (m ≠ ((alGet s.mtimeCache path).getD (0, -statFreqMs)).1 →
      alGet (getMtime statFreqMs s path now (some m)).2.1.cache path = none) ∧
    (m = ((alGet s.mtimeCache path).getD (0, -statFreqMs)).1 →
      (getMtime statFreqMs s path now (some m)).2.1.cache = s.cache) := by
  by_cases hm : m = ((alGet s.mtimeCache path).getD (0, -statFreqMs)).1
  · simp [getMtime, hchk, hm]
  · simp [getMtime, hchk, hm]

/-- Witness for C3: fresh state, stat succeeds with value 5. -/
theorem getMtime_stat_success_witness :
    (10 : Int) < 3 -
      ((alGet (MtimeState.mk ([] : List (String × Nat)) []).mtimeCache "p").getD (0, -10)).2 ∧
    (getMtime 10 (MtimeState.mk ([] : List (String × Nat)) []) "p" 3 (some 5)).1 = some 5 ∧
    alGet (getMtime 10 (MtimeState.mk ([] : List (String × Nat)) []) "p" 3
        (some 5)).2.1.mtimeCache "p" = some (5, 3) := by
  refine ⟨by decide, ?_, ?_⟩
  · exact (getMtime_stat_success 10 (MtimeState.mk [] []) "p" 3 5 (by decide)).1
  · exact (getMtime_stat_success 10 (MtimeState.mk [] []) "p" 3 5 (by decide)).2.1

/-- C4: when a real stat is performed and fails (the metadata provider
throws), the path entry is deleted from both caches and `getMtime` returns
`undefined` rather than re-raising the fault (the model is total: the throw
is absorbed by `catcher` and surfaces only as the `none` result). -/
theorem getMtime_stat_failure (statFreqMs : Int) (s : MtimeState V) (path : String)
    (now : Int)
    (hchk : statFreqMs < now - ((alGet s.mtimeCache path).getD (0, -statFreqMs)).2) :
    getMtime statFreqMs s path now none =
      (none, { cache := alErase path s.cache, mtimeCache := alErase path s.mtimeCache },
        true) ∧
    alGet (getMtime statFreqMs s path now none).2.1.cache path = none ∧
    alGet (getMtime statFreqMs s path now none).2.1.mtimeCache path = none := by
  simp [getMtime, hchk]

/-- Witness for C4: a state holding entries for the path under both caches;
the failing stat evicts both. -/
theorem getMtime_stat_failure_witness :
    alGet (getMtime 10 (MtimeState.mk [("p", (42 : Nat))] [("p", ((5 : Int), (1 : Int)))])
        "p" 20 none).2.1.cache "p" = none ∧
    alGet (getMtime 10 (MtimeState.mk [("p", (42 : Nat))] [("p", ((5 : Int), (1 : Int)))])
        "p" 20 none).2.1.mtimeCache "p" = none := by
  have h := getMtime_stat_failure 10
    (MtimeState.mk [("p", (42 : Nat))] [("p", ((5 : Int), (1 : Int)))]) "p" 20
    (by decide)
  exact ⟨h.2.1, h.2.2⟩

/-- Within-window behavior of `getMtime`, as a reusable lemma: when a
modification-cache entry `(M, T)` exists and `now - T ≤ statFreqMs`, the call
returns `M`, changes nothing, and performs no filesystem query. -/
theorem getMtime_window_aux (statFreqMs : Int) (s : MtimeState V) (path : String)
    (now M T : Int) (stat : Option Int)
    (hmem : alGet s.mtimeCache path = some (M, T)) (hwin : now - T ≤ statFreqMs) :
    getMtime statFreqMs s path now stat = (some M, s, false) := by
  have hn : ¬ statFreqMs < now - T := not_lt.mpr hwin
  simp [getMtime, hmem, hn]

/-- C6: within the rate-limit window — a modification-cache entry `(M, T)`
exists and `now - T ≤ statFreqMs` — `getMtime` returns `M`, changes nothing,
and performs no filesystem query (first conjunct); consequently a call made
within `statFreqMs` of a call that performed a successful real check never
triggers a second query (second conjunct). -/
theorem getMtime_rate_limited (statFreqMs : Int) (s : MtimeState V) (path : String) :
    (∀ now M T stat, alGet s.mtimeCache path = some (M, T) → now - T ≤ statFreqMs →
      getMtime statFreqMs s path now stat = (some M, s, false)) ∧
    (∀ now₁ m now₂ stat₂,
      statFreqMs < now₁ - ((alGet s.mtimeCache path).getD (0, -statFreqMs)).2 →
      now₂ - now₁ ≤ statFreqMs →
      getMtime statFreqMs (getMtime statFreqMs s path now₁ (some m)).2.1 path now₂ stat₂ =
        (some m, (getMtime statFreqMs s path now₁ (some m)).2.1, false)) := by
  constructor
  · intro now M T stat hmem hwin
    exact getMtime_window_aux statFreqMs s path now M T stat hmem hwin
  · intro now₁ m now₂ stat₂ hchk hwin
    have hmem :
        alGet (getMtime statFreqMs s path now₁ (some m)).2.1.mtimeCache path =
          some (m, now₁) := by
      simp [getMtime, hchk]
    exact getMtime_window_aux statFreqMs _ path now₂ m now₁ stat₂ hmem hwin

/-- Witness for C6 at a concrete state with entry `(5, 1)` and a fresh state
after a real check at time 3. -/
theorem getMtime_rate_limited_witness :
    (alGet (MtimeState.mk ([] : List (String × Nat)) [("p", ((5 : Int), (1 : Int)))]).mtimeCache
        "p" = some (5, 1) ∧
      (4 : Int) - 1 ≤ 10 ∧
      getMtime 10 (MtimeState.mk ([] : List (String × Nat)) [("p", (5, 1))]) "p" 4 none =
        (some 5, MtimeState.mk [] [("p", (5, 1))], false)) ∧
    getMtime 10 (getMtime 10 (MtimeState.mk ([] : List (String × Nat)) []) "p" 3
        (some 7)).2.1 "p" 9 none =
      (some 7, (getMtime 10 (MtimeState.mk ([] : List (String × Nat)) []) "p" 3
        (some 7)).2.1, false) := by
  constructor
  · exact ⟨by decide, by decide,
      (getMtime_rate_limited 10 (MtimeState.mk [] [("p", (5, 1))]) "p").1 4 5 1 none
        (by decide) (by decide)⟩
  · exact (getMtime_rate_limited 10 (MtimeState.mk [] []) "p").2 3 7 9 none
      (by decide) (by decide)

/-- C7: for a path absent from the modification cache, the sentinel pair
`(0, -statFreqMs)` is used, so at any positive clock reading the first call
performs an immediate real check no matter the sign of `statFreqMs` (the
check condition `now - (-statFreqMs) > statFreqMs` reduces to `now > 0`);
moreover, on success the sentinel modification value `0` governs eviction. -/
theorem getMtime_sentinel_first_check (statFreqMs : Int) (s : MtimeState V)
    (path : String) (now : Int) (stat : Option Int)
    (habs : alGet s.mtimeCache path = none) (hpos : 0 < now) :
    (getMtime statFreqMs s path now stat).2.2 = true ∧
    ∀ m, stat = some m →
      (getMtime statFreqMs s path now stat).2.1.cache =
        (if m = 0 then s.cache else alErase path s.cache) := by
  constructor
  · cases stat with
    | none => simp [getMtime, habs, hpos]
    | some m => simp [getMtime, habs, hpos]
  · intro m hm
    subst hm
    by_cases h0 : m = 0
    · simp [getMtime, habs, hpos, h0]
    · simp [getMtime, habs, hpos, h0]

/-- Witness for C7 with a negative interval: the first call still checks. -/
theorem getMtime_sentinel_first_check_witness :
    alGet (MtimeState.mk ([] : List (String × Nat)) []).mtimeCache "p" = none ∧
    (0 : Int) < 1 ∧
    (getMtime (-100) (MtimeState.mk ([] : List (String × Nat)) []) "p" 1
        (some 5)).2.2 = true :=
  ⟨rfl, by decide,
    (getMtime_sentinel_first_check (-100) (MtimeState.mk [] []) "p" 1 (some 5)
      rfl (by decide)).1⟩

/-- C10: a result-cache entry pre-seeded for a path with no modification-cache
entry is deleted by the first real check whenever the actual modification
value `m` is nonzero (the sentinel modification value `0` differs from `m`),
and survives exactly when `m = 0` (first conjunct); it also survives any call
when a matching modification-cache entry `(m, T)` was pre-seeded as well
(second conjunct). -/
theorem getMtime_preseeded_eviction (statFreqMs : Int) (s : MtimeState V)
    (path : String) (now m : Int) (v : V) (hc : alGet s.cache path = some v) :
    (alGet s.mtimeCache path = none → 0 < now →
      alGet (getMtime statFreqMs s path now (some m)).2.1.cache path =
        (if m = 0 then some v else none)) ∧
    (∀ T, alGet s.mtimeCache path = some (m, T) →
      alGet (getMtime statFreqMs s path now (some m)).2.1.cache path = some v) := by
  constructor
  · intro habs hpos
    by_cases h0 : m = 0
    · simp [getMtime, habs, hpos, h0, hc]
    · simp [getMtime, habs, hpos, h0]
  · intro T hmem
    by_cases hchk : statFreqMs < now - T
    · simp [getMtime, hmem, hchk, hc]
    · simp [getMtime, hmem, hchk, hc]

/-- Witness for C10: pre-seeded result entry, no modification entry, on-disk
modification value 5 — the entry is evicted. -/
theorem getMtime_preseeded_eviction_witness :
    alGet (MtimeState.mk [("p", (42 : Nat))] []).cache "p" = some 42 ∧
    alGet (MtimeState.mk [("p", (42 : Nat))] []).mtimeCache "p" = none ∧
    alGet (getMtime 10 (MtimeState.mk [("p", (42 : Nat))] []) "p" 1
        (some 5)).2.1.cache "p" = none := by
  refine ⟨by decide, rfl, ?_⟩
  have h := (getMtime_preseeded_eviction 10 (MtimeState.mk [("p", (42 : Nat))] [])
    "p" 1 5 42 (by decide)).1 rfl (by decide)
  simpa using h

/-- C8: every invocation of the wrapper runs `getMtime` and all of its side
effects first, unconditionally, and then delegates to the memoizer over the
(possibly evicted) result cache, returning its answer (first conjunct).  In
particular, even when the result cache held an entry for the path (the
memoizer would have hit), a real check observing a changed modification value
evicts it first, so the wrapper recomputes `fn` (second conjunct). -/
theorem cachedMtime_getMtime_first (fn : String → V) (statFreqMs : Int)
    (s : MtimeState V) (path : String) (now : Int) (stat : Option Int) :
    (cachedMtimeCall fn statFreqMs s path now stat =
      ((cachedStep (listMap String V) fn
          (getMtime statFreqMs s path now stat).2.1.cache path).1,
        { cache := (cachedStep (listMap String V) fn
            (getMtime statFreqMs s path now stat).2.1.cache path).2.1,
          mtimeCache := (getMtime statFreqMs s path now stat).2.1.mtimeCache },
        (getMtime statFreqMs s path now stat).2.2,
        (cachedStep (listMap String V) fn
          (getMtime statFreqMs s path now stat).2.1.cache path).2.2)) ∧
    (∀ v M T m, alGet s.cache path = some v → alGet s.mtimeCache path = some (M, T) →
      statFreqMs < now - T → stat = some m → m ≠ M →
      (cachedMtimeCall fn statFreqMs s path now stat).1 = some (fn path) ∧
      (cachedMtimeCall fn statFreqMs s path now stat).2.2.2 = 1) := by
  constructor
  · rfl
  · intro v M T m hv hmem hchk hstat hne
    subst hstat
    have hcache :
        alGet (getMtime statFreqMs s path now (some m)).2.1.cache path = none := by
      simp [getMtime, hmem, hchk, hne]
    constructor
    · simp [cachedMtimeCall, cachedStep, listMap, hcache]
    · simp [cachedMtimeCall, cachedStep, listMap, hcache]

/-- Witness for C8: the result cache holds 42 for the path, the modification
value changes from 5 to 7, and the wrapper recomputes instead of serving the
stale 42. -/
theorem cachedMtime_getMtime_first_witness :
    alGet (MtimeState.mk [("p", (42 : Nat))] [("p", ((5 : Int), (1 : Int)))]).cache "p" =
      some 42 ∧
    (cachedMtimeCall (fun _ => (99 : Nat)) 10
        (MtimeState.mk [("p", 42)] [("p", (5, 1))]) "p" 20 (some 7)).1 = some 99 ∧
    (cachedMtimeCall (fun _ => (99 : Nat)) 10
        (MtimeState.mk [("p", 42)] [("p", (5, 1))]) "p" 20 (some 7)).2.2.2 = 1 := by
  have h := (cachedMtime_getMtime_first (fun _ => (99 : Nat)) 10
    (MtimeState.mk [("p", 42)] [("p", (5, 1))]) "p" 20 (some 7)).2 42 5 1 7
    (by decide) (by decide) (by decide) rfl (by decide)
  exact ⟨by decide, h.1, h.2⟩

/-- Rewriting lemma: a real check that succeeds with value `m`. -/
theorem getMtime_eq_check_success (f : Int) (s : MtimeState V) (p : String) (now m : Int)
    (hchk : f < now - ((alGet s.mtimeCache p).getD (0, -f)).2) :
    getMtime f s p now (some m) =
      (some m,
        MtimeState.mk
          (if m = ((alGet s.mtimeCache p).getD (0, -f)).1 then s.cache
            else alErase p s.cache)
          (alSet p (m, now) s.mtimeCache),
        true) := by
  simp [getMtime, hchk]

/-- Rewriting lemma: a real check that fails. -/
theorem getMtime_eq_check_failure (f : Int) (s : MtimeState V) (p : String) (now : Int)
    (hchk : f < now - ((alGet s.mtimeCache p).getD (0, -f)).2) :
    getMtime f s p now none =
      (none, MtimeState.mk (alErase p s.cache) (alErase p s.mtimeCache), true) := by
  simp [getMtime, hchk]

/-- Rewriting lemma: no real check inside the rate-limit window. -/
theorem getMtime_eq_nowindow (f : Int) (s : MtimeState V) (p : String) (now : Int)
    (disk : Option Int)
    (h : ¬ f < now - ((alGet s.mtimeCache p).getD (0, -f)).2) :
    getMtime f s p now disk =
      (some ((alGet s.mtimeCache p).getD (0, -f)).1, s, false) := by
  simp [getMtime, h]

/-- Decomposition of the wrapper state: `getMtime` effects first, then the
memoizer over the possibly-evicted result cache. -/
theorem cachedMtimeCall_state (fn : String → V) (f : Int) (s : MtimeState V)
    (p : String) (now : Int) (st : Option Int) :
    (cachedMtimeCall fn f s p now st).2.1 =
      MtimeState.mk
        (cachedStep (listMap String V) fn (getMtime f s p now st).2.1.cache p).2.1
        (getMtime f s p now st).2.1.mtimeCache := rfl

/-- An operation of the mtime-gated memoizer together with the environment at
the moment it runs: the clock reading `now` and the current on-disk
modification value `disk` (`none` when the path is missing, so that the stat
throws and the throw is swallowed by `catcher`). -/
inductive MOp where
  | wrapped (path : String) (now : Int) (disk : Option Int)
  | getM (path : String) (now : Int) (disk : Option Int)

def MOp.path : MOp → String
  | MOp.wrapped p _ _ => p
  | MOp.getM p _ _ => p

def MOp.now : MOp → Int
  | MOp.wrapped _ n _ => n
  | MOp.getM _ n _ => n

def MOp.disk : MOp → Option Int
  | MOp.wrapped _ _ d => d
  | MOp.getM _ _ d => d

/-- Ghost-instrumented step of the mtime-gated memoizer over result caches of
value type `Option Int`: the value the memoizer stores on a miss is
instrumented to be the on-disk modification value at the instant the wrapped
function ran (execution is synchronous, so the stat outcome and the wrapped
function call of one invocation observe the same disk state).  With this
instrumentation, the history statement "this entry was produced while the
on-disk modification value equaled M" becomes the state predicate "this entry
holds the ghost value `some M`". -/
def mstep (f : Int) (s : MtimeState (Option Int)) : MOp → MtimeState (Option Int)
  | MOp.wrapped p now disk => (cachedMtimeCall (fun _ => disk) f s p now disk).2.1
  | MOp.getM p now disk => (getMtime f s p now disk).2.1

/-- Run a sequence of operations from a starting state. -/
def runOps (f : Int) (s : MtimeState (Option Int)) : List MOp → MtimeState (Option Int)
  | [] => s
  | op :: t => runOps f (mstep f s op) t

/-- The staleness invariant of the spec: whenever the modification cache
holds `(M, T)` for a path, the result cache either has no entry for that
path, or its entry was produced while the on-disk modification value equaled
`M` (ghost value `some M`). -/
def MtimeInv (s : MtimeState (Option Int)) : Prop :=
  ∀ p m t, alGet s.mtimeCache p = some (m, t) →
    alGet s.cache p = none ∨ alGet s.cache p = some (some m)

/-- Side conditions on one operation under which the staleness invariant is
preserved: the on-disk modification value is never the sentinel value `0`,
and while the operation falls inside the rate-limit window of its path the
on-disk value still equals the cached modification value (the disk may change
only when the next operation on the path performs a real check). -/
def OpOk (f : Int) (s : MtimeState (Option Int)) (op : MOp) : Prop :=
  op.disk ≠ some 0 ∧
  ∀ m t, alGet s.mtimeCache op.path = some (m, t) → op.now - t ≤ f →
    op.disk = some m

/-- `OpOk` holding along a whole run. -/
def TraceOk (f : Int) : MtimeState (Option Int) → List MOp → Prop
  | _, [] => True
  | s, op :: t => OpOk f s op ∧ TraceOk f (mstep f s op) t

/-- `getMtime` alone preserves the staleness invariant whenever the observed
disk value is not the sentinel `0`. -/
theorem getMtime_preserves_inv (f : Int) (s : MtimeState (Option Int)) (p : String)
    (now : Int) (disk : Option Int) (hInv : MtimeInv s) (hdisk : disk ≠ some 0) :
    MtimeInv (getMtime f s p now disk).2.1 := by
  by_cases hchk : f < now - ((alGet s.mtimeCache p).getD (0, -f)).2
  · cases disk with
    | none =>
      rw [getMtime_eq_check_failure f s p now hchk]
      intro p' m' t' hmem
      have hmem' : alGet (alErase p s.mtimeCache) p' = some (m', t') := hmem
      show alGet (alErase p s.cache) p' = none ∨
        alGet (alErase p s.cache) p' = some (some m')
      by_cases hp : p' = p
      · subst hp
        rw [alGet_erase_self] at hmem'
        exact absurd hmem' (by simp)
      · rw [alGet_erase_ne p p' s.mtimeCache hp] at hmem'
        rw [alGet_erase_ne p p' s.cache hp]
        exact hInv p' m' t' hmem'
    | some m =>
      rw [getMtime_eq_check_success f s p now m hchk]
      intro p' m' t' hmem
      have hmem' : alGet (alSet p (m, now) s.mtimeCache) p' = some (m', t') := hmem
      show alGet (if m = ((alGet s.mtimeCache p).getD (0, -f)).1 then s.cache
          else alErase p s.cache) p' = none ∨
        alGet (if m = ((alGet s.mtimeCache p).getD (0, -f)).1 then s.cache
          else alErase p s.cache) p' = some (some m')
      by_cases hp : p' = p
      · subst hp
        rw [alGet_set_self] at hmem'
        have hpair : m = m' ∧ now = t' := by simpa using hmem'
        cases halk : alGet s.mtimeCache p' with
        | none =>
          have h1 : m ≠ 0 := by
            intro h0
            exact hdisk (by rw [h0])
          simp only [Option.getD_none]
          rw [if_neg (by simpa using h1)]
          exact Or.inl (alGet_erase_self p' s.cache)
        | some MT =>
          simp only [Option.getD_some]
          by_cases hm : m = MT.1
          · rw [if_pos hm]
            have hinv := hInv p' MT.1 MT.2 (by rw [halk])
            rw [← hpair.1, hm]
            exact hinv
          · rw [if_neg hm]
            exact Or.inl (alGet_erase_self p' s.cache)
      · rw [alGet_set_ne p p' (m, now) s.mtimeCache hp] at hmem'
        have h := hInv p' m' t' hmem'
        by_cases hm : m = ((alGet s.mtimeCache p).getD (0, -f)).1
        · rw [if_pos hm]
          exact h
        · rw [if_neg hm]
          rw [alGet_erase_ne p p' s.cache hp]
          exact h
  · rw [getMtime_eq_nowindow f s p now disk hchk]
    exact hInv

/-- One instrumented operation preserves the staleness invariant under its
side conditions. -/
theorem mstep_preserves_inv (f : Int) (s : MtimeState (Option Int)) (op : MOp)
    (hInv : MtimeInv s) (hok : OpOk f s op) : MtimeInv (mstep f s op) := by
  obtain ⟨hdisk, hwin⟩ := hok
  cases op with
  | getM p now disk =>
    exact getMtime_preserves_inv f s p now disk hInv hdisk
  | wrapped p now disk =>
    have hg : MtimeInv (getMtime f s p now disk).2.1 :=
      getMtime_preserves_inv f s p now disk hInv hdisk
    show MtimeInv (cachedMtimeCall (fun _ => disk) f s p now disk).2.1
    rw [cachedMtimeCall_state]
    by_cases hhit :
        (listMap String (Option Int)).has (getMtime f s p now disk).2.1.cache p = true
    · have hstep : (cachedStep (listMap String (Option Int)) (fun _ => disk)
          (getMtime f s p now disk).2.1.cache p).2.1 =
          (getMtime f s p now disk).2.1.cache := by
        simp [cachedStep, hhit]
      rw [hstep]
      exact hg
    · have hstep : (cachedStep (listMap String (Option Int)) (fun _ => disk)
          (getMtime f s p now disk).2.1.cache p).2.1 =
          alSet p disk (getMtime f s p now disk).2.1.cache := by
        have hh : ¬ (alGet (getMtime f s p now disk).2.1.cache p).isSome = true := hhit
        simp [cachedStep, listMap, hh]
      rw [hstep]
      intro p' m' t' hmem
      have hmem' : alGet (getMtime f s p now disk).2.1.mtimeCache p' = some (m', t') :=
        hmem
      show alGet (alSet p disk (getMtime f s p now disk).2.1.cache) p' = none ∨
        alGet (alSet p disk (getMtime f s p now disk).2.1.cache) p' = some (some m')
      by_cases hp : p' = p
      · subst hp
        refine Or.inr ?_
        rw [alGet_set_self]
        have hd : disk = some m' := by
          by_cases hchk : f < now - ((alGet s.mtimeCache p').getD (0, -f)).2
          · cases hdv : disk with
            | none =>
              rw [hdv] at hmem'
              rw [getMtime_eq_check_failure f s p' now hchk] at hmem'
              have hx : alGet (alErase p' s.mtimeCache) p' = some (m', t') := hmem'
              rw [alGet_erase_self] at hx
              exact absurd hx (by simp)
            | some m =>
              rw [hdv] at hmem'
              rw [getMtime_eq_check_success f s p' now m hchk] at hmem'
              have hx : alGet (alSet p' (m, now) s.mtimeCache) p' = some (m', t') :=
                hmem'
              rw [alGet_set_self] at hx
              have hpair : m = m' ∧ now = t' := by simpa using hx
              rw [hpair.1]
          · rw [getMtime_eq_nowindow f s p' now disk hchk] at hmem'
            have hx : alGet s.mtimeCache p' = some (m', t') := hmem'
            have hT : now - t' ≤ f := by
              rw [hx] at hchk
              simp only [Option.getD_some] at hchk
              omega
            exact hwin m' t' hx hT
        rw [hd]
      · rw [alGet_set_ne p p' disk _ hp]
        exact hg p' m' t' hmem'

/-- The staleness invariant holds along every run whose operations satisfy
the side conditions. -/
theorem runOps_inv (f : Int) : ∀ (ops : List MOp) (s : MtimeState (Option Int)),
    MtimeInv s → TraceOk f s ops → MtimeInv (runOps f s ops)
  | [], _, hInv, _ => hInv
  | op :: t, s, hInv, hok =>
    runOps_inv f t (mstep f s op) (mstep_preserves_inv f s op hInv hok.1) hok.2

/-- The trace violating the staleness invariant as the spec states it:
a wrapped call caches a result, a standalone `getMtime` detects a change and
evicts it, the disk changes again inside the rate-limit window, and the next
wrapped call recomputes without a new check. -/
def cexOps : List MOp :=
  [MOp.wrapped "p" 1 (some 5), MOp.getM "p" 12 (some 7), MOp.wrapped "p" 14 (some 9)]

/-- C2 counterexample: starting from empty caches, after the operations of
`cexOps` (with `statFreqMs = 10`) the modification cache holds `(7, 12)` for
the path while the result-cache entry was produced while the on-disk value
was `9`, so the invariant fails as stated. -/
theorem mtime_staleness_invariant_cex :
    alGet (runOps 10 (MtimeState.mk [] []) cexOps).mtimeCache "p" = some (7, 12) ∧
    alGet (runOps 10 (MtimeState.mk [] []) cexOps).cache "p" = some (some 9) ∧
    ¬ MtimeInv (runOps 10 (MtimeState.mk [] []) cexOps) := by
  have h1 : alGet (runOps 10 (MtimeState.mk [] []) cexOps).mtimeCache "p" =
      some (7, 12) := by decide
  have h2 : alGet (runOps 10 (MtimeState.mk [] []) cexOps).cache "p" =
      some (some 9) := by decide
  refine ⟨h1, h2, fun h => ?_⟩
  rcases h "p" 7 12 h1 with h3 | h3 <;> rw [h2] at h3 <;> simp at h3

/-- C2 (amended): starting from empty caches, the staleness invariant is
preserved by every operation (wrapped call or standalone `getMtime`) of every
run in which the on-disk modification value is never the sentinel `0` and, at
any operation falling inside the rate-limit window of its path, the on-disk
value still equals the cached modification value. -/
theorem mtime_staleness_invariant (statFreqMs : Int) (ops : List MOp)
    (hok : TraceOk statFreqMs (MtimeState.mk [] []) ops) :
    MtimeInv (runOps statFreqMs (MtimeState.mk [] []) ops) :=
  runOps_inv statFreqMs ops (MtimeState.mk [] [])
    (fun p m t h => by simp [alGet] at h) hok

/-- Witness for C2 (amended) on a concrete one-operation run. -/
theorem mtime_staleness_invariant_witness :
    TraceOk 10 (MtimeState.mk [] []) [MOp.wrapped "p" 1 (some 5)] ∧
    MtimeInv (runOps 10 (MtimeState.mk [] []) [MOp.wrapped "p" 1 (some 5)]) := by
  have hok : TraceOk 10 (MtimeState.mk [] []) [MOp.wrapped "p" 1 (some 5)] := by
    refine ⟨⟨by decide, ?_⟩, trivial⟩
    intro m t h
    simp [alGet, MOp.path] at h
  exact ⟨hok, mtime_staleness_invariant 10 [MOp.wrapped "p" 1 (some 5)] hok⟩

end Cached
